import Mathlib

/-!
A shallow embedding of the metro-sci fast-plot rendering core
(`_fast_plot_native.pyx` together with the `separate` and `add_pixel`
kernels), and proofs about it.

Modelling conventions:
* C `double` values are embedded as `ℚ`; a C cast `<int>(...)` of a
  `double` truncates toward zero and is embedded as `rtrunc`.
* C integer locals and indices are embedded as `ℤ` (the claims under
  study do not depend on 32-bit wrap of index arithmetic); data elements
  of fixed-width integer arrays are embedded modulo `2 ^ w` where a
  claim is about their wrap-around arithmetic.
* Raw memory reachable from a pointer is embedded as a total function
  from the signed byte offset to the stored value; a write is a
  pointwise functional update.
* A Cython `for a <= v <= b by 1` loop is embedded as `forRangeIncl`,
  and each `while` loop of the Bresenham rasterizer runs for exactly
  `dx` (resp. `dy`) iterations because the stepped coordinate moves by
  `ix = ±1` from its start to its endpoint, so it is embedded by
  structural recursion on that count.
-/

/-- Truncation toward zero of a rational: the semantics of a C cast of a
`double` to an integer type (`<int>(...)` in the source). -/
def rtrunc (q : ℚ) : ℤ := if 0 ≤ q then ⌊q⌋ else ⌈q⌉

/-- One-dimensional caller-owned memory holding one value per signed offset. -/
abbrev Buffer : Type := ℤ → ℤ

/-- Pointwise store into a one-dimensional memory. -/
def bufWrite {α : Type} (f : ℤ → α) (i : ℤ) (v : α) : ℤ → α :=
  fun j => if j = i then v else f j

/-- Pointwise store into a two-dimensional array. -/
def gridWrite {ι κ α : Type} [DecidableEq ι] [DecidableEq κ]
    (f : ι → κ → α) (i : ι) (j : κ) (v : α) : ι → κ → α :=
  fun i2 j2 => if i2 = i ∧ j2 = j then v else f i2 j2

/-- The `surface` struct of `_fast_plot_native.pyx`: image-buffer
properties, plot geometry, clip bounds in image space, axis limits in
data space, and the data→image transformation factors. -/
structure Surface : Type where
  ptr : ℤ
  line_length : ℤ
  height_complement : ℤ
  offset_x : ℤ
  offset_y : ℤ
  plot_width : ℤ
  plot_height : ℤ
  min_x : ℤ
  max_x : ℤ
  min_y : ℤ
  max_y : ℤ
  start_x : ℚ
  end_x : ℚ
  start_y : ℚ
  end_y : ℚ
  div_x : ℚ
  div_y : ℚ

/-- `draw_pixel`: store `c` at `(height_complement - y) * line_length + x`,
but only when `(x, y)` lies inside the clip rectangle. -/
def draw_pixel (s : Surface) (x y c : ℤ) (buf : Buffer) : Buffer :=
  if s.min_x ≤ x ∧ x ≤ s.max_x ∧ s.min_y ≤ y ∧ y ≤ s.max_y then
    bufWrite buf ((s.height_complement - y) * s.line_length + x) c
  else
    buf

/-- `for v from lo <= v <= lo + n - 1 by 1`, folding a loop body. -/
def forRange {β : Type} (f : ℤ → β → β) (lo : ℤ) : ℕ → β → β
  | 0, b => b
  | n + 1, b => forRange f (lo + 1) n (f lo b)

/-- The Cython loop `for v from lo <= v <= hi by 1`. -/
def forRangeIncl {β : Type} (f : ℤ → β → β) (lo hi : ℤ) (b : β) : β :=
  forRange f lo (hi + 1 - lo).toNat b

/-- `draw_rect`: outline of the rectangle with upper-left corner
`(x1, y1)` and size `w × h`; the side loops run strictly between the
corner rows drawn by the first loop. -/
def draw_rect (s : Surface) (x1 y1 w h c : ℤ) (buf : Buffer) : Buffer :=
  let x2 := x1 + w - 1
  let y2 := y1 + h - 1
  let buf1 := forRangeIncl (fun x b => draw_pixel s x y2 c (draw_pixel s x y1 c b)) x1 x2 buf
  forRangeIncl (fun y b => draw_pixel s x2 y c (draw_pixel s x1 y c b)) (y1 + 1) (y2 - 1) buf1

/-- `fill_rect`: the source's inner loop is `for y from y1 < y < y2 by 1`,
a strict range, embedded as the inclusive range `y1 + 1 .. y2 - 1`. -/
def fill_rect (s : Surface) (x1 y1 w h c : ℤ) (buf : Buffer) : Buffer :=
  let x2 := x1 + w - 1
  let y2 := y1 + h - 1
  forRangeIncl
    (fun x b => forRangeIncl (fun y bb => draw_pixel s x y c bb) (y1 + 1) (y2 - 1) b)
    x1 x2 buf

/-- `draw_square`: rectangle of side `l` centered on `(x, y)`;
`(l - 1) >> 1` is an arithmetic shift, i.e. floor division by two. -/
def draw_square (s : Surface) (x y l c : ℤ) (buf : Buffer) : Buffer :=
  draw_rect s (x - Int.fdiv (l - 1) 2) (y - Int.fdiv (l - 1) 2) l l c buf

/-- The Bresenham `while x != x2` loop (major axis x). State is
`(x, y, error)`; the loop body draws, conditionally steps `y` and
adjusts the error, then advances `x` by `ix` and adds `dy2`. -/
def bresAlongX (s : Surface) (c ix iy dx2 dy2 : ℤ) :
    ℕ → ℤ × ℤ × ℤ → Buffer → (ℤ × ℤ × ℤ) × Buffer
  | 0, st, buf => (st, buf)
  | n + 1, (x, y, e), buf =>
    let buf2 := draw_pixel s x y c buf
    let y2 := if 0 ≤ e then y + iy else y
    let e2 := if 0 ≤ e then e - dx2 else e
    bresAlongX s c ix iy dx2 dy2 n (x + ix, y2, e2 + dy2) buf2

/-- The Bresenham `while y != y2` loop (major axis y). -/
def bresAlongY (s : Surface) (c ix iy dx2 dy2 : ℤ) :
    ℕ → ℤ × ℤ × ℤ → Buffer → (ℤ × ℤ × ℤ) × Buffer
  | 0, st, buf => (st, buf)
  | n + 1, (x, y, e), buf =>
    let buf2 := draw_pixel s x y c buf
    let x2 := if 0 ≤ e then x + ix else x
    let e2 := if 0 ≤ e then e - dy2 else e
    bresAlongY s c ix iy dx2 dy2 n (x2, y + iy, e2 + dx2) buf2

/-- `draw_line`: absolute differences and step signs, the direct loops
for vertical and horizontal lines (with the source's swap of the loop
bounds when the step is negative), and otherwise Bresenham along the
axis with the larger difference.  Each `while` loop runs exactly `dx`
(resp. `dy`) times, after which the final pixel is drawn. -/
def draw_line (s : Surface) (x1 y1 x2 y2 c : ℤ) (buf : Buffer) : Buffer :=
  let dx := if x1 ≤ x2 then x2 - x1 else x1 - x2
  let ix : ℤ := if x1 ≤ x2 then 1 else -1
  let dy := if y1 ≤ y2 then y2 - y1 else y1 - y2
  let iy : ℤ := if y1 ≤ y2 then 1 else -1
  if dx = 0 then
    forRangeIncl (fun y b => draw_pixel s x1 y c b)
      (if iy < 0 then y2 else y1) (if iy < 0 then y1 else y2) buf
  else if dy = 0 then
    forRangeIncl (fun x b => draw_pixel s x y1 c b)
      (if ix < 0 then x2 else x1) (if ix < 0 then x1 else x2) buf
  else if dy ≤ dx then
    let r := bresAlongX s c ix iy (2 * dx) (2 * dy) dx.toNat (x1, y1, 2 * dy - dx) buf
    draw_pixel s r.1.1 r.1.2.1 c r.2
  else
    let r := bresAlongY s c ix iy (2 * dx) (2 * dy) dy.toNat (x1, y1, 2 * dx - dy) buf
    draw_pixel s r.1.1 r.1.2.1 c r.2

/-- `surface_set_geometry`: store the image-buffer properties and the
plot geometry, and recompute the clip bounds from it. -/
def surface_set_geometry (s : Surface) (image_bits line_length image_height : ℤ)
    (geometry : ℤ → ℤ) : Surface :=
  { s with
    ptr := image_bits
    line_length := line_length
    height_complement := image_height - 1
    offset_x := geometry 0
    offset_y := geometry 1
    plot_width := geometry 2
    plot_height := geometry 3
    min_x := geometry 0
    max_x := geometry 0 + geometry 2
    min_y := geometry 1
    max_y := geometry 1 + geometry 3 }

/-- `surface_set_view`: store the data-space axis limits and the
transformation factors. -/
def surface_set_view (s : Surface) (axes transform : ℤ → ℚ) : Surface :=
  { s with
    start_x := axes 0
    end_x := axes 1
    start_y := axes 2
    end_y := axes 3
    div_x := transform 0
    div_y := transform 1 }

/-- `surface_clear`: `memset` of the `line_length * (height_complement + 1)`
bytes of the image buffer to zero. -/
def surface_clear (s : Surface) (buf : Buffer) : Surface × Buffer :=
  (s, fun i => if 0 ≤ i ∧ i < s.line_length * (s.height_complement + 1) then 0 else buf i)

/-- The inner accumulation of `stack`: `datum = <y_t>0`, then
`datum += inp[i, <int>(j + k * stacking)]` for `k in range(h)`, with the
element type's own addition (`α`, `zero`, `add` stand for the fused
numeric type of the source). -/
def stackDatum {α : Type} (add : α → α → α) (inpRow : ℤ → α) (stacking : ℚ) (j : ℤ) :
    ℕ → ℕ → α → α
  | 0, _, acc => acc
  | n + 1, k, acc =>
    stackDatum add inpRow stacking j n (k + 1)
      (add acc (inpRow (rtrunc ((j : ℚ) + (k : ℚ) * stacking))))

/-- The value `stack` stores into `outp[i, j]`. -/
def stackCell {α : Type} (zero : α) (add : α → α → α) (inpRow : ℤ → α)
    (stacking : ℚ) (h : ℕ) (j : ℤ) : α :=
  stackDatum add inpRow stacking j h 0 zero

/-- The `for j in range(outp_len)` loop of `stack` for row `i`;
`n` is the remaining iteration count and `j` the next column. -/
def stackInner {α : Type} (zero : α) (add : α → α → α) (inpRow : ℤ → α)
    (stacking : ℚ) (h : ℕ) (i : ℕ) :
    ℕ → ℤ → (ℕ → ℤ → α) → (ℕ → ℤ → α)
  | 0, _, out => out
  | n + 1, j, out =>
    stackInner zero add inpRow stacking h i n (j + 1)
      (gridWrite out i j (stackCell zero add inpRow stacking h j))

/-- The `for i in range(inp.shape[0])` loop of `stack`;
`w` is the column count `outp_len` of each row. -/
def stackOuter {α : Type} (zero : α) (add : α → α → α) (inp : ℕ → ℤ → α)
    (stacking : ℚ) (h w : ℕ) :
    ℕ → ℕ → (ℕ → ℤ → α) → (ℕ → ℤ → α)
  | 0, _, out => out
  | n + 1, i, out =>
    stackOuter zero add inp stacking h w n (i + 1)
      (stackInner zero add (inp i) stacking h i w 0 out)

/-- `stack`: `outp_len = min(inp_len, <int>stacking)`,
`stack_height = <int>(inp_len / stacking)`, then the two nested loops.
`rows` is `inp.shape[0]` and `inp_len` is `inp.shape[1]`. -/
def stack {α : Type} (zero : α) (add : α → α → α) (rows : ℕ) (inp_len : ℤ)
    (inp : ℕ → ℤ → α) (outp : ℕ → ℤ → α) (stacking : ℚ) : ℕ → ℤ → α :=
  let outp_len := min inp_len (rtrunc stacking)
  let stack_height := (rtrunc ((inp_len : ℚ) / stacking)).toNat
  stackOuter zero add inp stacking stack_height outp_len.toNat rows 0 outp

/-- The `for j in range(outp_begin, outp_end)` loop of `separate` for
row `i`: `outp[i, (j - outp_begin) // binning] = inp[<int>(part_start + j)]`,
with C truncating integer division (`cdivision`). -/
def sepInner (inp : ℤ → ℚ) (binning outp_begin : ℤ) (part_start : ℚ) (i : ℕ) :
    ℕ → ℤ → (ℕ → ℤ → ℚ) → (ℕ → ℤ → ℚ)
  | 0, _, out => out
  | n + 1, j, out =>
    sepInner inp binning outp_begin part_start i n (j + 1)
      (gridWrite out i (Int.tdiv (j - outp_begin) binning)
        (inp (rtrunc (part_start + (j : ℚ)))))

/-- The `for i in range(n_parts)` loop of `separate`;
`part_start = <double>i * distance`, and `w` is the per-row iteration
count of the inner loop. -/
def sepOuter (inp : ℤ → ℚ) (binning outp_begin : ℤ) (distance : ℚ) (w : ℕ) :
    ℕ → ℕ → (ℕ → ℤ → ℚ) → (ℕ → ℤ → ℚ)
  | 0, _, out => out
  | n + 1, i, out =>
    sepOuter inp binning outp_begin distance w n (i + 1)
      (sepInner inp binning outp_begin ((i : ℚ) * distance) i w outp_begin out)

/-- `separate`: `outp_len = min(inp_len, <int>distance)`,
`n_parts = <int>(inp_len / distance)`, the open-ended slice defaults
(`0` and `outp_len`), then the two nested loops. -/
def separate (inp_len : ℤ) (inp : ℤ → ℚ) (outp : ℕ → ℤ → ℚ) (distance : ℚ)
    (binning : ℤ) (slice_start slice_stop : Option ℤ) : ℕ → ℤ → ℚ :=
  let outp_len := min inp_len (rtrunc distance)
  let n_parts := rtrunc ((inp_len : ℚ) / distance)
  let outp_begin := slice_start.getD 0
  let outp_end := slice_stop.getD outp_len
  sepOuter inp binning outp_begin distance (outp_end - outp_begin).toNat n_parts.toNat 0 outp

/-- An error raised by `plot` or `bars`: the explicit `ValueError` for
mismatched sample counts, or an out-of-bounds array access (the source
is compiled with bounds checks disabled; the total embedding surfaces
that access as an error value). -/
inductive PlotErr : Type where
  | shapeMismatch : PlotErr
  | indexOut : PlotErr
deriving DecidableEq

/-- The `for i in range(1, N)` loop of `plot` when `marker` is set. -/
def plotLoopMarker (s : Surface) (xs ys : List ℚ) (line_color symbol_color : ℤ) :
    ℕ → ℕ → ℤ → ℤ → Buffer → Option PlotErr × Surface × Buffer
  | 0, _, _, _, buf => (none, s, buf)
  | n + 1, i, last_x, last_y, buf =>
    match xs[i]?, ys[i]? with
    | some xv, some yv =>
      let cur_x := rtrunc ((xv - s.start_x) * s.div_x) + s.offset_x
      let cur_y := rtrunc ((yv - s.start_y) * s.div_y) + s.offset_y
      let buf2 :=
        if ¬((last_x < s.offset_x ∧ cur_x < s.offset_x) ∨
             (last_x > s.max_x ∧ cur_x > s.max_x)) then
          draw_square s cur_x cur_y 5 symbol_color
            (draw_line s last_x last_y cur_x cur_y line_color buf)
        else buf
      plotLoopMarker s xs ys line_color symbol_color n (i + 1) cur_x cur_y buf2
    | _, _ => (some .indexOut, s, buf)

/-- The `for i in range(1, N)` loop of `plot` when `marker` is not set. -/
def plotLoopPlain (s : Surface) (xs ys : List ℚ) (line_color : ℤ) :
    ℕ → ℕ → ℤ → ℤ → Buffer → Option PlotErr × Surface × Buffer
  | 0, _, _, _, buf => (none, s, buf)
  | n + 1, i, last_x, last_y, buf =>
    match xs[i]?, ys[i]? with
    | some xv, some yv =>
      let cur_x := rtrunc ((xv - s.start_x) * s.div_x) + s.offset_x
      let cur_y := rtrunc ((yv - s.start_y) * s.div_y) + s.offset_y
      let buf2 :=
        if ¬((last_x < s.offset_x ∧ cur_x < s.offset_x) ∨
             (last_x > s.max_x ∧ cur_x > s.max_x)) then
          draw_line s last_x last_y cur_x cur_y line_color buf
        else buf
      plotLoopPlain s xs ys line_color n (i + 1) cur_x cur_y buf2
    | _, _ => (some .indexOut, s, buf)

/-- `plot`: the shape-mismatch check, the palette colors
`line_color = (color_idx + 1) * 10 + 1` and `symbol_color = line_color + 1`,
the unconditional read of element 0 of both arrays, the optional first
marker, and the pairwise loop.  The surface is returned unchanged: the
source never assigns to any of its fields here. -/
def plot (s : Surface) (xs ys : List ℚ) (color_idx : ℤ) (marker : Bool) (buf : Buffer) :
    Option PlotErr × Surface × Buffer :=
  if xs.length ≠ ys.length then (some .shapeMismatch, s, buf)
  else
    let N := ys.length
    let line_color := (color_idx + 1) * 10 + 1
    let symbol_color := line_color + 1
    match xs[0]?, ys[0]? with
    | some x0, some y0 =>
      let last_x := rtrunc ((x0 - s.start_x) * s.div_x) + s.offset_x
      let last_y := rtrunc ((y0 - s.start_y) * s.div_y) + s.offset_y
      let buf1 :=
        if marker ∧ s.offset_x ≤ last_x ∧ last_x ≤ s.max_x then
          draw_square s last_x last_y 5 symbol_color buf
        else buf
      if marker then plotLoopMarker s xs ys line_color symbol_color (N - 1) 1 last_x last_y buf1
      else plotLoopPlain s xs ys line_color (N - 1) 1 last_x last_y buf1
    | _, _ => (some .indexOut, s, buf)

/-- The `for i in range(N)` loop of `bars`; `width // 2` is C truncating
division, and `abs(cur_y - y0)` the bar height. -/
def barsLoop (s : Surface) (xs ys : List ℚ) (color width y0 : ℤ) :
    ℕ → ℕ → Buffer → Option PlotErr × Surface × Buffer
  | 0, _, buf => (none, s, buf)
  | n + 1, i, buf =>
    match xs[i]?, ys[i]? with
    | some xv, some yv =>
      let datum : ℚ := yv
      let cur_x := rtrunc ((xv - s.start_x) * s.div_x) + s.offset_x
      let cur_y := rtrunc ((datum - s.start_y) * s.div_y) + s.offset_y
      let buf2 :=
        if s.offset_x ≤ cur_x ∧ cur_x ≤ s.max_x then
          if cur_y = y0 then
            draw_line s (cur_x - Int.tdiv width 2) y0 (cur_x + Int.tdiv width 2) y0 color buf
          else
            fill_rect s (cur_x - Int.tdiv width 2) (min y0 cur_y) width |cur_y - y0| color buf
        else buf
      barsLoop s xs ys color width y0 n (i + 1) buf2
    | _, _ => (some .indexOut, s, buf)

/-- `bars`: the shape-mismatch check, the palette color, the zero
baseline row `y0` computed once, and the per-sample loop.  The surface
is returned unchanged: the source never assigns to any of its fields. -/
def bars (s : Surface) (xs ys : List ℚ) (color_idx width : ℤ) (buf : Buffer) :
    Option PlotErr × Surface × Buffer :=
  if xs.length ≠ ys.length then (some .shapeMismatch, s, buf)
  else
    let color := (color_idx + 1) * 10 + 1
    let y0 := rtrunc (((0 : ℚ) - s.start_y) * s.div_y) + s.offset_y
    barsLoop s xs ys color width y0 ys.length 0 buf

/-- The intensity `<unsigned char>(255 - 255/(1 + 0.005 * count))` of
`add_pixel`: the double literal `0.005` idealized as the exact rational
`5 / 1000`, the conversion to `unsigned char` embedded as truncation
toward zero reduced modulo 256. -/
def scaledOf (count : ℤ) : ℕ :=
  ((rtrunc ((255 : ℚ) - 255 / (1 + (5 / 1000) * (count : ℚ)))).emod 256).toNat

/-- The position loop of `add_pixel`: increment `mtx[y, x]`, rescale,
track the running maximum, and store the intensity at the vertically
flipped offset `(size_y - 1 - y) * size_x + x`. -/
def addPixelLoop (size_x size_y : ℤ) :
    List (ℤ × ℤ) → (ℤ → ℤ → ℤ) → (ℤ → ℕ) → ℕ → (ℤ → ℤ → ℤ) × (ℤ → ℕ) × ℕ
  | [], mtx, img, m => (mtx, img, m)
  | (x, y) :: rest, mtx, img, m =>
    let mtx2 := gridWrite mtx y x (mtx y x + 1)
    let scaled_value := scaledOf (mtx2 y x)
    let max_value := max scaled_value m
    let img2 := bufWrite img ((size_y - 1 - y) * size_x + x) scaled_value
    addPixelLoop size_x size_y rest mtx2 img2 max_value

/-- `add_pixel`: seed the running maximum with `prev_max_value`, process
every position, and return the mutated count matrix, the mutated image
buffer, and the final maximum. -/
def add_pixel (mtx : ℤ → ℤ → ℤ) (pos : List (ℤ × ℤ)) (size_x size_y : ℤ)
    (img : ℤ → ℕ) (prev_max_value : ℕ) : (ℤ → ℤ → ℤ) × (ℤ → ℕ) × ℕ :=
  addPixelLoop size_x size_y pos mtx img prev_max_value

/-! ### Concrete scenario data used by witnesses and counterexamples -/

/-- An all-zero image buffer. -/
def zeroBuf : Buffer := fun _ => 0

/-- A surface whose clip rectangle `[-100, 100] × [-100, 100]` contains
every pixel the concrete scenarios below touch. -/
def sWide : Surface :=
  { ptr := 0, line_length := 1000, height_complement := 100,
    offset_x := -100, offset_y := -100, plot_width := 200, plot_height := 200,
    min_x := -100, max_x := 100, min_y := -100, max_y := 100,
    start_x := 0, end_x := 1, start_y := 0, end_y := 1, div_x := 1, div_y := 1 }

/-! ### C2: pixel-level clipping of `draw_pixel` -/

/-- Claim C2: for a surface whose `height_complement` is `hgt - 1`,
`draw_pixel` stores `c` at buffer offset `(hgt - 1 - y) * line_length + x`
exactly when `min_x ≤ x ≤ max_x` and `min_y ≤ y ≤ max_y`; for every
`(x, y)` outside that rectangle it is a no-op and the whole buffer is
unchanged. -/
theorem draw_pixel_clip_spec (s : Surface) (hgt x y c : ℤ) (buf : Buffer)
    (hs : s.height_complement = hgt - 1) :
    (s.min_x ≤ x ∧ x ≤ s.max_x ∧ s.min_y ≤ y ∧ y ≤ s.max_y →
      draw_pixel s x y c buf = bufWrite buf ((hgt - 1 - y) * s.line_length + x) c) ∧
    (¬(s.min_x ≤ x ∧ x ≤ s.max_x ∧ s.min_y ≤ y ∧ y ≤ s.max_y) →
      draw_pixel s x y c buf = buf) := by
  constructor <;> intro h <;> simp [draw_pixel, h, hs]

/-- Witness for C2 at a concrete in-clip input. -/
theorem draw_pixel_clip_spec_witness :
    draw_pixel sWide 1 2 7 zeroBuf = bufWrite zeroBuf ((101 - 1 - 2) * sWide.line_length + 1) 7 :=
  (draw_pixel_clip_spec sWide 101 1 2 7 zeroBuf (by decide)).1 (by decide)

/-! ### C3: the shape-mismatch error path of `plot` and `bars` -/

/-- Claim C3: with `len(xs) ≠ len(ys)`, both `plot` and `bars` fail with
the shape-mismatch `ValueError` and perform no drawing: the buffer and
the surface are returned exactly as given. -/
theorem shape_mismatch_rejected (s : Surface) (xs ys : List ℚ) (ci w : ℤ)
    (marker : Bool) (buf : Buffer) (h : xs.length ≠ ys.length) :
    plot s xs ys ci marker buf = (some PlotErr.shapeMismatch, s, buf) ∧
    bars s xs ys ci w buf = (some PlotErr.shapeMismatch, s, buf) := by
  constructor
  · simp [plot, h]
  · simp [bars, h]

/-- Witness for C3 at concrete mismatched inputs. -/
theorem shape_mismatch_rejected_witness :
    plot sWide [(0 : ℚ)] [] 0 false zeroBuf = (some PlotErr.shapeMismatch, sWide, zeroBuf) ∧
    bars sWide [(0 : ℚ)] [] 0 3 zeroBuf = (some PlotErr.shapeMismatch, sWide, zeroBuf) :=
  shape_mismatch_rejected sWide [(0 : ℚ)] [] 0 3 false zeroBuf (by decide)

/-! ### C8: monotonicity of the running maximum of `add_pixel` -/

/-- The running maximum never decreases across the position loop. -/
theorem addPixelLoop_max_le (size_x size_y : ℤ) :
    ∀ (l : List (ℤ × ℤ)) (mtx : ℤ → ℤ → ℤ) (img : ℤ → ℕ) (m : ℕ),
      m ≤ (addPixelLoop size_x size_y l mtx img m).2.2 := by
  intro l
  induction l with
  | nil => intro mtx img m; exact le_rfl
  | cons p rest ih =>
    intro mtx img m
    obtain ⟨x, y⟩ := p
    exact le_trans (le_max_right _ m) (ih _ _ _)

/-- Claim C8: `add_pixel` returns a maximum that is at least
`prev_max_value` (so chained calls are monotonically non-decreasing),
and on an empty position list it returns exactly `prev_max_value` and
leaves the count matrix and the image buffer unchanged. -/
theorem add_pixel_max_monotone (mtx : ℤ → ℤ → ℤ) (pos : List (ℤ × ℤ))
    (size_x size_y : ℤ) (img : ℤ → ℕ) (prev_max_value : ℕ) :
    prev_max_value ≤ (add_pixel mtx pos size_x size_y img prev_max_value).2.2 ∧
    add_pixel mtx [] size_x size_y img prev_max_value = (mtx, img, prev_max_value) :=
  ⟨addPixelLoop_max_le size_x size_y pos mtx img prev_max_value, rfl⟩

/-! ### C5: `fill_rect` misses its first and last rows -/

/-- Claim C5 is contradicted by the code: `fill_rect(0, 0, 3, 3, 7)` on a
surface that clips nothing should issue `draw_pixel` for every cell of
the closed 3×3 rectangle, in particular for `(0, 0)` — whose buffer
offset `(100 - 0) * 1000 + 0` stays `0` — while the interior row pixel
`(0, 1)` at offset `(100 - 1) * 1000 + 0` is drawn.  The strict inner
loop `for y from y1 < y < y2` skips the rows `y1` and `y1 + h - 1`. -/
theorem fill_rect_misses_boundary_rows :
    fill_rect sWide 0 0 3 3 7 zeroBuf 100000 = 0 ∧
    fill_rect sWide 0 0 3 3 7 zeroBuf 99000 = 7 := by
  constructor <;> decide

/-! ### C6: `draw_line` is not symmetric in its endpoints -/

/-- Claim C6 is contradicted by the code: from `(0,0)` to `(4,1)` the
Bresenham loop lights `(2,1)`, but from `(4,1)` to `(0,0)` it lights
`(2,0)` instead, so the two buffers differ (here at the offset
`(100 - 0) * 1000 + 2` of pixel `(2, 0)`). -/
theorem draw_line_asymmetric_counterexample :
    draw_line sWide 0 0 4 1 7 zeroBuf ≠ draw_line sWide 4 1 0 0 7 zeroBuf := by
  intro h
  have h2 := congrFun h 100002
  revert h2
  decide

/-! ### C9: the clip-bound invariant and field preservation -/

/-- The marker loop of `plot` never assigns to any surface field. -/
theorem plotLoopMarker_surface (s : Surface) (xs ys : List ℚ) (lc sc : ℤ) :
    ∀ (n i : ℕ) (lx ly : ℤ) (buf : Buffer),
      (plotLoopMarker s xs ys lc sc n i lx ly buf).2.1 = s := by
  intro n
  induction n with
  | zero => intro i lx ly buf; rfl
  | succ n ih =>
    intro i lx ly buf
    cases hx : xs[i]? with
    | none => simp [plotLoopMarker, hx]
    | some xv =>
      cases hy : ys[i]? with
      | none => simp [plotLoopMarker, hx, hy]
      | some yv =>
        simp only [plotLoopMarker, hx, hy]
        exact ih (i + 1) _ _ _

/-- The plain loop of `plot` never assigns to any surface field. -/
theorem plotLoopPlain_surface (s : Surface) (xs ys : List ℚ) (lc : ℤ) :
    ∀ (n i : ℕ) (lx ly : ℤ) (buf : Buffer),
      (plotLoopPlain s xs ys lc n i lx ly buf).2.1 = s := by
  intro n
  induction n with
  | zero => intro i lx ly buf; rfl
  | succ n ih =>
    intro i lx ly buf
    cases hx : xs[i]? with
    | none => simp [plotLoopPlain, hx]
    | some xv =>
      cases hy : ys[i]? with
      | none => simp [plotLoopPlain, hx, hy]
      | some yv =>
        simp only [plotLoopPlain, hx, hy]
        exact ih (i + 1) _ _ _

/-- The sample loop of `bars` never assigns to any surface field. -/
theorem barsLoop_surface (s : Surface) (xs ys : List ℚ) (color width y0 : ℤ) :
    ∀ (n i : ℕ) (buf : Buffer), (barsLoop s xs ys color width y0 n i buf).2.1 = s := by
  intro n
  induction n with
  | zero => intro i buf; rfl
  | succ n ih =>
    intro i buf
    cases hx : xs[i]? with
    | none => simp [barsLoop, hx]
    | some xv =>
      cases hy : ys[i]? with
      | none => simp [barsLoop, hx, hy]
      | some yv =>
        simp only [barsLoop, hx, hy]
        exact ih (i + 1) _

/-- `plot` returns the surface unchanged on every path. -/
theorem plot_surface (s : Surface) (xs ys : List ℚ) (ci : ℤ) (marker : Bool)
    (buf : Buffer) : (plot s xs ys ci marker buf).2.1 = s := by
  unfold plot
  split
  · rfl
  · split
    · split
      · exact plotLoopMarker_surface _ _ _ _ _ _ _ _ _ _
      · exact plotLoopPlain_surface _ _ _ _ _ _ _ _ _
    · rfl

/-- `bars` returns the surface unchanged on every path. -/
theorem bars_surface (s : Surface) (xs ys : List ℚ) (ci w : ℤ) (buf : Buffer) :
    (bars s xs ys ci w buf).2.1 = s := by
  unfold bars
  split
  · rfl
  · exact barsLoop_surface _ _ _ _ _ _ _ _ _

/-- Claim C9: `surface_set_geometry` establishes
`min_x = offset_x`, `max_x = offset_x + plot_width`,
`min_y = offset_y`, `max_y = offset_y + plot_height`, and
`surface_set_view`, `surface_clear`, `plot` and `bars` never modify any
of the eight geometry/clip fields (the latter three return the surface
entirely unchanged). -/
theorem surface_clip_invariant (s : Surface) (ib ll ihgt : ℤ) (geom : ℤ → ℤ)
    (axes transform : ℤ → ℚ) (xs ys : List ℚ) (ci w : ℤ) (marker : Bool)
    (b1 b2 b3 : Buffer) :
    ((surface_set_geometry s ib ll ihgt geom).min_x
        = (surface_set_geometry s ib ll ihgt geom).offset_x ∧
     (surface_set_geometry s ib ll ihgt geom).max_x
        = (surface_set_geometry s ib ll ihgt geom).offset_x
          + (surface_set_geometry s ib ll ihgt geom).plot_width ∧
     (surface_set_geometry s ib ll ihgt geom).min_y
        = (surface_set_geometry s ib ll ihgt geom).offset_y ∧
     (surface_set_geometry s ib ll ihgt geom).max_y
        = (surface_set_geometry s ib ll ihgt geom).offset_y
          + (surface_set_geometry s ib ll ihgt geom).plot_height) ∧
    ((surface_set_view s axes transform).offset_x = s.offset_x ∧
     (surface_set_view s axes transform).offset_y = s.offset_y ∧
     (surface_set_view s axes transform).plot_width = s.plot_width ∧
     (surface_set_view s axes transform).plot_height = s.plot_height ∧
     (surface_set_view s axes transform).min_x = s.min_x ∧
     (surface_set_view s axes transform).max_x = s.max_x ∧
     (surface_set_view s axes transform).min_y = s.min_y ∧
     (surface_set_view s axes transform).max_y = s.max_y) ∧
    (surface_clear s b1).1 = s ∧
    (plot s xs ys ci marker b2).2.1 = s ∧
    (bars s xs ys ci w b3).2.1 = s :=
  ⟨⟨rfl, rfl, rfl, rfl⟩, ⟨rfl, rfl, rfl, rfl, rfl, rfl, rfl, rfl⟩, rfl,
    plot_surface s xs ys ci marker b2, bars_surface s xs ys ci w b3⟩

/-! ### C10: `plot` reads element 0 before its loop -/

/-- All accesses of the marker loop succeed when the index range stays
within both arrays. -/
theorem plotLoopMarker_ok (s : Surface) (xs ys : List ℚ) (lc sc : ℤ) :
    ∀ (n i : ℕ) (lx ly : ℤ) (buf : Buffer),
      i + n ≤ xs.length → i + n ≤ ys.length →
      (plotLoopMarker s xs ys lc sc n i lx ly buf).1 = none := by
  intro n
  induction n with
  | zero => intro i lx ly buf _ _; rfl
  | succ n ih =>
    intro i lx ly buf h1 h2
    have hx : i < xs.length := by omega
    have hy : i < ys.length := by omega
    simp only [plotLoopMarker, List.getElem?_eq_getElem hx, List.getElem?_eq_getElem hy]
    exact ih (i + 1) _ _ _ (by omega) (by omega)

/-- All accesses of the plain loop succeed when the index range stays
within both arrays. -/
theorem plotLoopPlain_ok (s : Surface) (xs ys : List ℚ) (lc : ℤ) :
    ∀ (n i : ℕ) (lx ly : ℤ) (buf : Buffer),
      i + n ≤ xs.length → i + n ≤ ys.length →
      (plotLoopPlain s xs ys lc n i lx ly buf).1 = none := by
  intro n
  induction n with
  | zero => intro i lx ly buf _ _; rfl
  | succ n ih =>
    intro i lx ly buf h1 h2
    have hx : i < xs.length := by omega
    have hy : i < ys.length := by omega
    simp only [plotLoopPlain, List.getElem?_eq_getElem hx, List.getElem?_eq_getElem hy]
    exact ih (i + 1) _ _ _ (by omega) (by omega)

/-- Claim C10: with equal-length inputs, `plot` reads element 0 of both
arrays before its loop, so on empty inputs the out-of-bounds branch of
the total embedding is reached, while on non-empty inputs every array
access of `plot` is in bounds and no error occurs. -/
theorem plot_head_access (s : Surface) (xs ys : List ℚ) (ci : ℤ) (marker : Bool)
    (buf : Buffer) (hlen : xs.length = ys.length) :
    (xs = [] → (plot s xs ys ci marker buf).1 = some PlotErr.indexOut) ∧
    (xs ≠ [] → (plot s xs ys ci marker buf).1 = none) := by
  constructor
  · rintro rfl
    have hys : ys = [] := List.length_eq_zero.1 (by simpa using hlen.symm)
    subst hys
    rfl
  · intro hne
    have hx0 : 0 < xs.length := List.length_pos.2 hne
    have hy0 : 0 < ys.length := by omega
    unfold plot
    rw [if_neg (by omega)]
    simp only [List.getElem?_eq_getElem hx0, List.getElem?_eq_getElem hy0]
    split
    · exact plotLoopMarker_ok _ _ _ _ _ _ 1 _ _ _ (by omega) (by omega)
    · exact plotLoopPlain_ok _ _ _ _ _ 1 _ _ _ (by omega) (by omega)

/-- Witness for C10: both conjuncts at concrete inputs (an empty pair
and a singleton pair). -/
theorem plot_head_access_witness :
    (plot sWide [] [] 0 false zeroBuf).1 = some PlotErr.indexOut ∧
    (plot sWide [(0 : ℚ)] [(0 : ℚ)] 0 true zeroBuf).1 = none :=
  ⟨(plot_head_access sWide [] [] 0 false zeroBuf rfl).1 rfl,
   (plot_head_access sWide [(0 : ℚ)] [(0 : ℚ)] 0 true zeroBuf rfl).2 (by decide)⟩

/-! ### Characterization of the cells written by `stack` -/

/-- `rtrunc` agrees with the floor on non-negative rationals. -/
theorem rtrunc_eq_floor (q : ℚ) (h : 0 ≤ q) : rtrunc q = ⌊q⌋ := if_pos h

/-- The inner column loop of `stack` leaves every cell outside its own
row and column range unchanged. -/
theorem stackInner_untouched {α : Type} (zero : α) (add : α → α → α) (inpRow : ℤ → α)
    (stacking : ℚ) (h : ℕ) (i : ℕ) :
    ∀ (n : ℕ) (j0 : ℤ) (out : ℕ → ℤ → α) (i2 : ℕ) (j2 : ℤ),
      (i2 ≠ i ∨ j2 < j0 ∨ j0 + (n : ℤ) ≤ j2) →
      stackInner zero add inpRow stacking h i n j0 out i2 j2 = out i2 j2 := by
  intro n
  induction n with
  | zero => intro j0 out i2 j2 _; rfl
  | succ n ih =>
    intro j0 out i2 j2 hc
    simp only [stackInner]
    rw [ih (j0 + 1) _ i2 j2 ?_]
    · simp only [gridWrite]
      rw [if_neg]
      rintro ⟨rfl, rfl⟩
      rcases hc with h1 | h2 | h3
      · exact h1 rfl
      · omega
      · omega
    · rcases hc with h1 | h2 | h3
      · exact Or.inl h1
      · exact Or.inr (Or.inl (by omega))
      · exact Or.inr (Or.inr (by omega))

/-- The inner column loop of `stack` stores `stackCell` into every cell
of its column range. -/
theorem stackInner_written {α : Type} (zero : α) (add : α → α → α) (inpRow : ℤ → α)
    (stacking : ℚ) (h : ℕ) (i : ℕ) :
    ∀ (n : ℕ) (j0 : ℤ) (out : ℕ → ℤ → α) (j2 : ℤ),
      j0 ≤ j2 → j2 < j0 + (n : ℤ) →
      stackInner zero add inpRow stacking h i n j0 out i j2
        = stackCell zero add inpRow stacking h j2 := by
  intro n
  induction n with
  | zero => intro j0 out j2 h1 h2; exfalso; omega
  | succ n ih =>
    intro j0 out j2 h1 h2
    by_cases hj : j2 = j0
    · subst hj
      simp only [stackInner]
      rw [stackInner_untouched zero add inpRow stacking h i n (j2 + 1) _ i j2
          (Or.inr (Or.inl (by omega)))]
      simp [gridWrite]
    · simp only [stackInner]
      exact ih (j0 + 1) _ j2 (by omega) (by omega)

/-- The row loop of `stack` leaves every row outside its range unchanged. -/
theorem stackOuter_row_untouched {α : Type} (zero : α) (add : α → α → α)
    (inp : ℕ → ℤ → α) (stacking : ℚ) (h w : ℕ) :
    ∀ (n i0 : ℕ) (out : ℕ → ℤ → α) (i2 : ℕ) (j2 : ℤ),
      (i2 < i0 ∨ i0 + n ≤ i2) →
      stackOuter zero add inp stacking h w n i0 out i2 j2 = out i2 j2 := by
  intro n
  induction n with
  | zero => intro i0 out i2 j2 _; rfl
  | succ n ih =>
    intro i0 out i2 j2 hc
    simp only [stackOuter]
    rw [ih (i0 + 1) _ i2 j2 (by omega)]
    exact stackInner_untouched zero add (inp i0) stacking h i0 w 0 out i2 j2
      (Or.inl (by omega))

/-- The row loop of `stack` leaves every column outside `[0, w)`
unchanged. -/
theorem stackOuter_col_untouched {α : Type} (zero : α) (add : α → α → α)
    (inp : ℕ → ℤ → α) (stacking : ℚ) (h w : ℕ) :
    ∀ (n i0 : ℕ) (out : ℕ → ℤ → α) (i2 : ℕ) (j2 : ℤ),
      (j2 < 0 ∨ (w : ℤ) ≤ j2) →
      stackOuter zero add inp stacking h w n i0 out i2 j2 = out i2 j2 := by
  intro n
  induction n with
  | zero => intro i0 out i2 j2 _; rfl
  | succ n ih =>
    intro i0 out i2 j2 hc
    simp only [stackOuter]
    rw [ih (i0 + 1) _ i2 j2 hc]
    exact stackInner_untouched zero add (inp i0) stacking h i0 w 0 out i2 j2
      (by rcases hc with h1 | h2
          · exact Or.inr (Or.inl h1)
          · exact Or.inr (Or.inr (by omega)))

/-- The row loop of `stack` stores `stackCell` into every cell of rows
in its range and columns in `[0, w)`. -/
theorem stackOuter_written {α : Type} (zero : α) (add : α → α → α)
    (inp : ℕ → ℤ → α) (stacking : ℚ) (h w : ℕ) :
    ∀ (n i0 : ℕ) (out : ℕ → ℤ → α) (i2 : ℕ) (j2 : ℤ),
      i0 ≤ i2 → i2 < i0 + n → 0 ≤ j2 → j2 < (w : ℤ) →
      stackOuter zero add inp stacking h w n i0 out i2 j2
        = stackCell zero add (inp i2) stacking h j2 := by
  intro n
  induction n with
  | zero => intro i0 out i2 j2 h1 h2 _ _; exfalso; omega
  | succ n ih =>
    intro i0 out i2 j2 h1 h2 h3 h4
    by_cases hi : i2 = i0
    · subst hi
      simp only [stackOuter]
      rw [stackOuter_row_untouched zero add inp stacking h w n (i2 + 1) _ i2 j2
          (Or.inl (by omega))]
      exact stackInner_written zero add (inp i2) stacking h i2 w 0 out j2 h3 (by omega)
    · simp only [stackOuter]
      exact ih (i0 + 1) _ i2 j2 (by omega) (by omega) h3 h4

/-! ### C1: the output width of `stack` -/

/-- Claim C1 (amended): `stack` writes exactly the columns
`0 ≤ j < min(L, ⌊S⌋)` of each of the `rows` rows — each such cell
receives the accumulated stacking value — and every other cell of the
output is left unchanged.  The written width is `min(L, ⌊S⌋)`, not
`⌊L/S⌋` as originally claimed. -/
theorem stack_output_width {α : Type} (zero : α) (add : α → α → α) (rows : ℕ)
    (L : ℤ) (inp outp : ℕ → ℤ → α) (S : ℚ) :
    (∀ (i : ℕ) (j : ℤ), (rows ≤ i ∨ j < 0 ∨ min L (rtrunc S) ≤ j) →
      stack zero add rows L inp outp S i j = outp i j) ∧
    (∀ (i : ℕ) (j : ℤ), i < rows → 0 ≤ j → j < min L (rtrunc S) →
      stack zero add rows L inp outp S i j
        = stackCell zero add (inp i) S (rtrunc ((L : ℚ) / S)).toNat j) := by
  constructor
  · intro i j hc
    unfold stack
    rcases hc with h1 | h2 | h3
    · exact stackOuter_row_untouched zero add inp S _ _ rows 0 outp i j (Or.inr (by omega))
    · exact stackOuter_col_untouched zero add inp S _ _ rows 0 outp i j (Or.inl h2)
    · by_cases hj : j < 0
      · exact stackOuter_col_untouched zero add inp S _ _ rows 0 outp i j (Or.inl hj)
      · exact stackOuter_col_untouched zero add inp S _ _ rows 0 outp i j
          (Or.inr (by omega))
  · intro i j h1 h2 h3
    unfold stack
    exact stackOuter_written zero add inp S _ _ rows 0 outp i j (by omega) (by omega) h2
      (by omega)

/-- A constant-one integer input row block. -/
def inpOnes : ℕ → ℤ → ℤ := fun _ _ => 1

/-- An output block pre-filled with the sentinel 99. -/
def out99 : ℕ → ℤ → ℤ := fun _ _ => 99

/-- Witness for C1 (amended): column 5 of the `L = 6`, `S = 2` stack is
outside the written width and keeps its sentinel. -/
theorem stack_output_width_witness :
    stack (0 : ℤ) (fun a b => a + b) 1 6 inpOnes out99 2 0 5 = out99 0 5 :=
  (stack_output_width 0 (fun a b => a + b) 1 6 inpOnes out99 2).1 0 5 (by decide)

/-- Counterexample to C1 as stated: with `L = 6`, `S = 2` the claimed
width is `⌊L/S⌋ = 3`, but column 2 of row 0 is never written (it keeps
the sentinel 99) because the code writes `min(L, ⌊S⌋) = 2` columns. -/
theorem stack_output_width_counterexample :
    stack (0 : ℤ) (fun a b => a + b) 1 6 inpOnes out99 2 0 2 = 99 ∧
    rtrunc ((6 : ℚ) / 2) = 3 ∧ min (6 : ℤ) (rtrunc 2) = 2 := by
  refine ⟨by decide, ?_, by decide⟩
  norm_num [rtrunc]

/-! ### C7: the value `stack` accumulates, modulo `2 ^ w` -/

/-- The accumulator loop of `stack`, instantiated with a fixed-width
integer type (addition modulo `2 ^ w`), computes the modular sum of the
strided samples. -/
theorem stackDatum_mod (w : ℕ) (f : ℤ → ℕ) (S : ℚ) (j : ℤ) :
    ∀ (n k : ℕ) (acc : ℕ),
      stackDatum (fun a b => (a + b) % 2 ^ w) f S j n k (acc % 2 ^ w)
        = (acc + ∑ t ∈ Finset.range n, f (rtrunc ((j : ℚ) + ((k + t : ℕ) : ℚ) * S))) % 2 ^ w := by
  intro n
  induction n with
  | zero => intro k acc; simp [stackDatum]
  | succ n ih =>
    intro k acc
    simp only [stackDatum]
    rw [Nat.mod_add_mod]
    rw [ih (k + 1) (acc + f (rtrunc ((j : ℚ) + (k : ℚ) * S)))]
    congr 1
    have hsum : ∑ t ∈ Finset.range n, f (rtrunc ((j : ℚ) + (((k + 1) + t : ℕ) : ℚ) * S))
        = ∑ t ∈ Finset.range n, f (rtrunc ((j : ℚ) + ((k + (t + 1) : ℕ) : ℚ) * S)) :=
      Finset.sum_congr rfl (fun t _ => by rw [show (k + 1) + t = k + (t + 1) by omega])
    rw [hsum, Finset.sum_range_succ']
    simp only [Nat.add_zero]
    omega

/-- The cell value of `stack` for a fixed-width integer type is the
modular strided sum seeded at zero. -/
theorem stackCell_mod (w : ℕ) (f : ℤ → ℕ) (S : ℚ) (h : ℕ) (j : ℤ) :
    stackCell 0 (fun a b => (a + b) % 2 ^ w) f S h j
      = (∑ t ∈ Finset.range h, f (rtrunc ((j : ℚ) + (t : ℚ) * S))) % 2 ^ w := by
  have h0 := stackDatum_mod w f S j h 0 0
  simp only [Nat.zero_mod, Nat.zero_add] at h0
  simpa [stackCell] using h0

/-- Claim C7: every output cell `stack` writes holds
`(∑ k < ⌊L/S⌋, inp[i][⌊j + k·S⌋]) mod 2^w` — the strided sum
accumulated in the fixed-width element type itself, wrapping on
overflow with no widening. -/
theorem stack_wraparound_sum (w rows : ℕ) (L : ℤ) (inp outp : ℕ → ℤ → ℕ) (S : ℚ)
    (i : ℕ) (j : ℤ) (hi : i < rows) (hS : 1 ≤ S) (hj0 : 0 ≤ j)
    (hj : j < min L (rtrunc S)) :
    stack 0 (fun a b => (a + b) % 2 ^ w) rows L inp outp S i j
      = (∑ k ∈ Finset.range (rtrunc ((L : ℚ) / S)).toNat,
          inp i ⌊(j : ℚ) + (k : ℚ) * S⌋) % 2 ^ w := by
  have hmain := stackOuter_written 0 (fun a b => (a + b) % 2 ^ w) inp S
    ((rtrunc ((L : ℚ) / S)).toNat) ((min L (rtrunc S)).toNat) rows 0 outp i j
    (by omega) (by omega) hj0 (by omega)
  calc stack 0 (fun a b => (a + b) % 2 ^ w) rows L inp outp S i j
      = stackCell 0 (fun a b => (a + b) % 2 ^ w) (inp i) S
          ((rtrunc ((L : ℚ) / S)).toNat) j := by unfold stack; exact hmain
    _ = (∑ k ∈ Finset.range (rtrunc ((L : ℚ) / S)).toNat,
          inp i ⌊(j : ℚ) + (k : ℚ) * S⌋) % 2 ^ w := by
        rw [stackCell_mod]
        congr 1
        refine Finset.sum_congr rfl (fun t _ => ?_)
        rw [rtrunc_eq_floor]
        have h1 : (0 : ℚ) ≤ (j : ℚ) := by exact_mod_cast hj0
        have h2 : (0 : ℚ) ≤ (t : ℚ) * S :=
          mul_nonneg (Nat.cast_nonneg t) (le_trans zero_le_one hS)
        linarith

/-- An input block of constant value 200, chosen so the 8-bit sum
overflows. -/
def inpOv : ℕ → ℤ → ℕ := fun _ _ => 200

/-- An 8-bit output block pre-filled with the sentinel 99. -/
def out99n : ℕ → ℤ → ℕ := fun _ _ => 99

/-- Witness for C7 at `w = 8`, `L = 6`, `S = 2` (the sum 600 wraps to
88 modulo 256). -/
theorem stack_wraparound_sum_witness :
    stack 0 (fun a b => (a + b) % 2 ^ 8) 1 6 inpOv out99n 2 0 0
      = (∑ k ∈ Finset.range (rtrunc (((6 : ℤ) : ℚ) / 2)).toNat,
          inpOv 0 ⌊((0 : ℤ) : ℚ) + (k : ℚ) * 2⌋) % 2 ^ 8 :=
  stack_wraparound_sum 8 1 6 inpOv out99n 2 0 0 (by decide) (by decide) (by decide)
    (by decide)

/-! ### C4: the rows `separate` fills -/

/-- The inner sample loop of `separate` never writes outside its own row. -/
theorem sepInner_row_untouched (inp : ℤ → ℚ) (b ob : ℤ) (ps : ℚ) (i : ℕ) :
    ∀ (n : ℕ) (j0 : ℤ) (out : ℕ → ℤ → ℚ) (i2 : ℕ) (j2 : ℤ), i2 ≠ i →
      sepInner inp b ob ps i n j0 out i2 j2 = out i2 j2 := by
  intro n
  induction n with
  | zero => intro j0 out i2 j2 _; rfl
  | succ n ih =>
    intro j0 out i2 j2 hne
    simp only [sepInner]
    rw [ih (j0 + 1) _ i2 j2 hne]
    simp only [gridWrite]
    rw [if_neg]
    rintro ⟨rfl, -⟩
    exact hne rfl

/-- With `binning = 1` and a slice starting at 0, iterations from any
`j0 ≥ 1` never touch column 0. -/
theorem sepInner_one_col0 (inp : ℤ → ℚ) (ps : ℚ) (i : ℕ) :
    ∀ (n : ℕ) (j0 : ℤ) (out : ℕ → ℤ → ℚ), 1 ≤ j0 →
      sepInner inp 1 0 ps i n j0 out i 0 = out i 0 := by
  intro n
  induction n with
  | zero => intro j0 out _; rfl
  | succ n ih =>
    intro j0 out h1
    simp only [sepInner]
    rw [ih (j0 + 1) _ (by omega)]
    simp only [gridWrite]
    rw [if_neg]
    rintro ⟨-, h0⟩
    rw [Int.tdiv_one] at h0
    omega

/-- With `binning = 1` and a slice starting at 0, the first iteration
stores `inp (rtrunc ps)` into column 0 and no later iteration touches
it. -/
theorem sepInner_one_writes_col0 (inp : ℤ → ℚ) (ps : ℚ) (i : ℕ) :
    ∀ (n : ℕ) (out : ℕ → ℤ → ℚ), 1 ≤ n →
      sepInner inp 1 0 ps i n 0 out i 0 = inp (rtrunc ps) := by
  intro n out h
  obtain ⟨m, rfl⟩ : ∃ m, n = m + 1 := ⟨n - 1, by omega⟩
  simp only [sepInner]
  rw [sepInner_one_col0 inp ps i m (0 + 1) _ (by omega)]
  simp only [gridWrite]
  rw [if_pos ⟨trivial, by decide⟩]
  norm_num

/-- The row loop of `separate` leaves every row outside its range
unchanged. -/
theorem sepOuter_row_untouched (inp : ℤ → ℚ) (b ob : ℤ) (D : ℚ) (w : ℕ) :
    ∀ (n i0 : ℕ) (out : ℕ → ℤ → ℚ) (i2 : ℕ) (j2 : ℤ),
      (i2 < i0 ∨ i0 + n ≤ i2) →
      sepOuter inp b ob D w n i0 out i2 j2 = out i2 j2 := by
  intro n
  induction n with
  | zero => intro i0 out i2 j2 _; rfl
  | succ n ih =>
    intro i0 out i2 j2 hc
    simp only [sepOuter]
    rw [ih (i0 + 1) _ i2 j2 (by omega)]
    exact sepInner_row_untouched inp b ob _ i0 w ob out i2 j2 (by omega)

/-- With `binning = 1` and a fully open slice, every processed row `i2`
ends with `inp (rtrunc (i2 * D))` in its column 0. -/
theorem sepOuter_one_col0 (inp : ℤ → ℚ) (D : ℚ) (w : ℕ) (hw : 1 ≤ w) :
    ∀ (n i0 : ℕ) (out : ℕ → ℤ → ℚ) (i2 : ℕ), i0 ≤ i2 → i2 < i0 + n →
      sepOuter inp 1 0 D w n i0 out i2 0 = inp (rtrunc ((i2 : ℚ) * D)) := by
  intro n
  induction n with
  | zero => intro i0 out i2 h1 h2; exfalso; omega
  | succ n ih =>
    intro i0 out i2 h1 h2
    by_cases hi : i2 = i0
    · subst hi
      simp only [sepOuter]
      rw [sepOuter_row_untouched inp 1 0 D w n (i2 + 1) _ i2 0 (Or.inl (by omega))]
      exact sepInner_one_writes_col0 inp _ i2 w _ hw
    · simp only [sepOuter]
      exact ih (i0 + 1) _ i2 (by omega) (by omega)

/-- Claim C4 (amended): for a 1-D input of length `L ≥ 1`, a distance
`1 ≤ D ≤ L` and a fully open output slice, `separate` fills exactly
`⌊L/D⌋` rows — every cell of every row at index `≥ ⌊L/D⌋` is unchanged
for any `binning` — and for `binning = 1` the final value of row `i` at
column 0 is `input[⌊i·D⌋]`.  (For `binning > 1` several samples of a row
alias onto column 0 and the last of them wins, so the original claim
fails; see the counterexample.) -/
theorem separate_row_structure (L : ℤ) (inp : ℤ → ℚ) (outp : ℕ → ℤ → ℚ) (D : ℚ)
    (b : ℤ) (hL : 1 ≤ L) (hD : 1 ≤ D) (hDL : D ≤ (L : ℚ)) :
    (∀ (i : ℕ) (j : ℤ), (rtrunc ((L : ℚ) / D)).toNat ≤ i →
      separate L inp outp D b none none i j = outp i j) ∧
    (∀ i : ℕ, i < (rtrunc ((L : ℚ) / D)).toNat →
      separate L inp outp D 1 none none i 0 = inp ⌊(i : ℚ) * D⌋) := by
  have hfloor : 1 ≤ rtrunc D := by
    rw [rtrunc_eq_floor D (by linarith)]
    exact Int.le_floor.2 (by exact_mod_cast hD)
  constructor
  · intro i j hi
    unfold separate
    exact sepOuter_row_untouched inp b _ D _ _ 0 outp i j (Or.inr (by omega))
  · intro i hi
    have hcol : separate L inp outp D 1 none none i 0
        = inp (rtrunc ((i : ℚ) * D)) := by
      unfold separate
      exact sepOuter_one_col0 inp D _ (by simp [Option.getD]; omega) _ 0 outp i
        (by omega) (by omega)
    rw [hcol, rtrunc_eq_floor]
    exact mul_nonneg (Nat.cast_nonneg i) (by linarith)

/-- The identity ramp input `inp[n] = n`. -/
def inpIdx : ℤ → ℚ := fun idx => (idx : ℚ)

/-- A rational output block pre-filled with the sentinel 99. -/
def out99q : ℕ → ℤ → ℚ := fun _ _ => 99

/-- Auxiliary concrete evaluation facts for the `separate` scenarios. -/
theorem sep_wit_le : (2 : ℚ) ≤ ((4 : ℤ) : ℚ) := by norm_num

/-- `⌊4/2⌋ = 2`, so row index 1 is a valid row of the witness scenario. -/
theorem sep_wit_lt : 1 < (rtrunc (((4 : ℤ) : ℚ) / 2)).toNat := by
  norm_num [rtrunc]

/-- Witness for C4 (amended) at `L = 4`, `D = 2`, `binning = 1`, row 1. -/
theorem separate_row_structure_witness :
    separate 4 inpIdx out99q 2 1 none none 1 0 = inpIdx ⌊((1 : ℕ) : ℚ) * 2⌋ :=
  (separate_row_structure 4 inpIdx out99q 2 1 (by decide) (by decide) sep_wit_le).2
    1 sep_wit_lt

/-- Counterexample to C4 as stated: with `L = 4`, `D = 2`, `binning = 2`
and the ramp input `inp[n] = n`, both samples `j = 0, 1` of row 0 alias
onto output column 0, so its final value is `inp[1] = 1`, not
`inp[⌊0·D⌋] = 0`. -/
theorem separate_col0_counterexample :
    separate 4 inpIdx out99q 2 2 none none 0 0 = 1 ∧
    inpIdx ⌊((0 : ℕ) : ℚ) * 2⌋ = 0 ∧ (1 : ℚ) ≠ 0 := by
  refine ⟨?_, by norm_num [inpIdx], by norm_num⟩
  have h1 : (rtrunc (((4 : ℤ) : ℚ) / 2)).toNat = 2 := by
    norm_num [rtrunc]
    decide
  have h2 : ∀ out : ℕ → ℤ → ℚ, sepOuter inpIdx 2 0 2 2 2 0 out 0 0
      = sepInner inpIdx 2 0 (((0 : ℕ) : ℚ) * 2) 0 2 0 out 0 0 := by
    intro out
    have hstep : sepOuter inpIdx 2 0 2 2 2 0 out
        = sepOuter inpIdx 2 0 2 2 1 1 (sepInner inpIdx 2 0 (((0 : ℕ) : ℚ) * 2) 0 2 0 out) :=
      rfl
    rw [hstep]
    exact sepOuter_row_untouched inpIdx 2 0 2 2 1 1 _ 0 0 (Or.inl (by omega))
  have ht0 : Int.tdiv (0 - 0) 2 = 0 := by decide
  have ht1 : Int.tdiv (1 - 0) 2 = 0 := by decide
  have h3 : sepInner inpIdx 2 0 (((0 : ℕ) : ℚ) * 2) 0 2 0 out99q 0 0 = 1 := by
    show (gridWrite (gridWrite out99q 0 (Int.tdiv (0 - 0) 2)
        (inpIdx (rtrunc ((((0 : ℕ) : ℚ) * 2) + ((0 : ℤ) : ℚ)))))
        0 (Int.tdiv (1 - 0) 2)
        (inpIdx (rtrunc ((((0 : ℕ) : ℚ) * 2) + ((1 : ℤ) : ℚ))))) 0 0 = 1
    rw [ht1]
    simp only [gridWrite, inpIdx]
    norm_num [rtrunc]
  simp only [separate, Option.getD_none]
  have hmin : (min (4 : ℤ) (rtrunc 2) - 0).toNat = 2 := by decide
  rw [hmin, h1, h2 out99q, h3]

/-! ### C6: symmetry of `draw_line` on straight lines -/

/-- A vertical line drawn upward is the inclusive pixel run `y1 .. y2`. -/
theorem draw_line_vertical (s : Surface) (x y1 y2 c : ℤ) (buf : Buffer)
    (h : y1 ≤ y2) :
    draw_line s x y1 x y2 c buf
      = forRangeIncl (fun y b => draw_pixel s x y c b) y1 y2 buf := by
  simp [draw_line, h]

/-- A vertical line drawn downward normalizes its bounds to the same
inclusive pixel run `y1 .. y2`. -/
theorem draw_line_vertical_rev (s : Surface) (x y1 y2 c : ℤ) (buf : Buffer)
    (h : y1 ≤ y2) :
    draw_line s x y2 x y1 c buf
      = forRangeIncl (fun y b => draw_pixel s x y c b) y1 y2 buf := by
  by_cases hy : y2 ≤ y1
  · have heq : y1 = y2 := le_antisymm h hy
    subst heq
    simp [draw_line]
  · simp [draw_line, hy]

/-- A horizontal line drawn rightward is the inclusive pixel run
`x1 .. x2`. -/
theorem draw_line_horizontal (s : Surface) (y x1 x2 c : ℤ) (buf : Buffer)
    (h : x1 < x2) :
    draw_line s x1 y x2 y c buf
      = forRangeIncl (fun x b => draw_pixel s x y c b) x1 x2 buf := by
  have h1 : x1 ≤ x2 := h.le
  have h2 : ¬(x2 - x1 = 0) := by omega
  simp [draw_line, h1, h2]

/-- A horizontal line drawn leftward normalizes its bounds to the same
inclusive pixel run `x1 .. x2`. -/
theorem draw_line_horizontal_rev (s : Surface) (y x1 x2 c : ℤ) (buf : Buffer)
    (h : x1 < x2) :
    draw_line s x2 y x1 y c buf
      = forRangeIncl (fun x b => draw_pixel s x y c b) x1 x2 buf := by
  have h2 : ¬(x2 - x1 = 0) := by omega
  have h3 : ¬(x2 ≤ x1) := not_le.2 h
  simp [draw_line, h2, h3]

/-- Claim C6 (amended): `draw_line` lights exactly the same pixels in
both directions for horizontal and for vertical lines; for other slopes
the two directions may differ (see the counterexample). -/
theorem draw_line_straight_symm (s : Surface) (x1 y1 x2 y2 c : ℤ) (buf : Buffer)
    (h : x1 = x2 ∨ y1 = y2) :
    draw_line s x1 y1 x2 y2 c buf = draw_line s x2 y2 x1 y1 c buf := by
  rcases h with rfl | rfl
  · rcases le_total y1 y2 with hy | hy
    · rw [draw_line_vertical s x1 y1 y2 c buf hy,
        draw_line_vertical_rev s x1 y1 y2 c buf hy]
    · rw [draw_line_vertical_rev s x1 y2 y1 c buf hy,
        draw_line_vertical s x1 y2 y1 c buf hy]
  · rcases lt_trichotomy x1 x2 with hx | rfl | hx
    · rw [draw_line_horizontal s y1 x1 x2 c buf hx,
        draw_line_horizontal_rev s y1 x1 x2 c buf hx]
    · rfl
    · rw [draw_line_horizontal_rev s y1 x2 x1 c buf hx,
        draw_line_horizontal s y1 x2 x1 c buf hx]

/-- Witness for C6 (amended) on a concrete vertical line. -/
theorem draw_line_straight_symm_witness :
    draw_line sWide 0 0 0 5 7 zeroBuf = draw_line sWide 0 5 0 0 7 zeroBuf :=
  draw_line_straight_symm sWide 0 0 0 5 7 zeroBuf (Or.inl rfl)
